import Mathlib

/-!
Verification of the lookup configuration-loading library.

The repository stores configuration values into the fields of a record.
Its core is a sequence resolver over key-value sources, a field-metadata
(struct tag) extractor, a type-coercion engine, and a resolution
orchestrator that drives them and notifies a Reporter.

The definitions below are a shallow embedding of the Go source.  The
repository bundles three revisions of the core file; where a claim cites
code from a specific revision, the corresponding definition is embedded
and its doc comment points at the revision it comes from.  Calls into the
Go standard library (strconv, encoding/base64, fmt scanning) are modelled
by executable Lean functions whose doc comments state the fragment of the
library behaviour they cover.
-/

/-- Result triple of one Looker call: value, found flag, error
(`none` models a nil Go error). -/
structure LookRes where
  v : String
  b : Bool
  err : Option String
deriving DecidableEq, Repr

/-- A Looker (the Source capability) modelled as a pure function from key
to result, matching the interface `LookupKey(string) (string, bool, error)`. -/
def Looker : Type := String → LookRes

/-- The acceptance condition of the sequence resolver: a source response
terminates the scan when the error is nil and the found flag is set
(`err == nil && b` in the Go loop). -/
def accepts (r : LookRes) : Prop := r.err = none ∧ r.b = true

instance (r : LookRes) : Decidable (accepts r) := by
  unfold accepts; infer_instance

/-- Loop body of `lookupKey` / `Seq.LookupKey`: the named return values
carry the last response; the loop breaks at the first accepted response. -/
def lookupKeyAux (s : String) (acc : LookRes) : List Looker → LookRes
  | [] => acc
  | e :: rest =>
    let r := e s
    if r.err = none ∧ r.b = true then r else lookupKeyAux s r rest

/-- `lookupKey` (first revision, part_002 lines 70-78) and `Seq.LookupKey`
(third revision, lines 452-461): try sources in order, return the first
response with found and nil error, otherwise the last response; the Go
named return values start at the zero values `("", false, nil)`. -/
def lookupKey (s : String) (l : List Looker) : LookRes :=
  lookupKeyAux s ⟨"", false, none⟩ l

/-- `NoBool.LookupKey` (part_002 lines 64-68): adapts a function returning
only value and error; the found flag is `err != nil`. -/
def NoBool (F : String → String × Option String) : Looker :=
  fun s => ⟨(F s).1, (F s).2.isSome, (F s).2⟩

-- Helper lemmas about the resolver loop.

theorem lookupKeyAux_all_reject (s : String) :
    ∀ (l : List Looker) (acc : LookRes), (∀ x ∈ l, ¬ accepts (x s)) →
      ∀ last, l.getLast? = some last → lookupKeyAux s acc l = last s := by
  intro l
  induction l with
  | nil => intro acc _ last h; simp at h
  | cons x rest ih =>
    intro acc hrej last hlast
    have hx : ¬ accepts (x s) := hrej x (by simp)
    have hx' : ¬ ((x s).err = none ∧ (x s).b = true) := hx
    cases rest with
    | nil =>
      simp only [List.getLast?_singleton, Option.some.injEq] at hlast
      subst hlast
      simp [lookupKeyAux, hx']
    | cons y rest' =>
      have hlast' : (y :: rest').getLast? = some last := by
        simpa [List.getLast?_cons_cons] using hlast
      have hrec := ih (x s) (fun z hz => hrej z (by simp [hz])) last hlast'
      rw [lookupKeyAux, if_neg hx']
      exact hrec

theorem lookupKeyAux_first_accept (s : String) :
    ∀ (pre : List Looker) (e : Looker) (suf : List Looker) (acc : LookRes),
      (∀ x ∈ pre, ¬ accepts (x s)) → accepts (e s) →
      lookupKeyAux s acc (pre ++ e :: suf) = e s := by
  intro pre
  induction pre with
  | nil =>
    intro e suf acc _ hacc
    have : (e s).err = none ∧ (e s).b = true := hacc
    simp [lookupKeyAux, this]
  | cons x rest ih =>
    intro e suf acc hrej hacc
    have hx : ¬ ((x s).err = none ∧ (x s).b = true) := hrej x (by simp)
    have := ih e suf (x s) (fun z hz => hrej z (by simp [hz])) hacc
    simp [lookupKeyAux, hx, this]

/-- C1: the sequence resolver tries sources in list order and returns the
first response whose call yields found with a nil error; if no source
yields such a response it returns the last response verbatim; the empty
source list yields the zero values `("", false, nil)`. -/
theorem lookupKey_first_success_or_last (s : String) (l : List Looker) :
    (lookupKey s [] = ⟨"", false, none⟩)
    ∧ (∀ pre e suf, l = pre ++ e :: suf → (∀ x ∈ pre, ¬ accepts (x s)) →
        accepts (e s) → lookupKey s l = e s)
    ∧ ((∀ x ∈ l, ¬ accepts (x s)) →
        ∀ last, l.getLast? = some last → lookupKey s l = last s) := by
  refine ⟨rfl, ?_, ?_⟩
  · intro pre e suf hsplit hrej hacc
    subst hsplit
    exact lookupKeyAux_first_accept s pre e suf _ hrej hacc
  · intro hrej last hlast
    exact lookupKeyAux_all_reject s l _ hrej last hlast

-- Concrete sources used by the witnesses below.

/-- A source that never finds any key. -/
def srcMiss : Looker := fun _ => ⟨"", false, none⟩

/-- A source that finds every key with value x. -/
def srcHit : Looker := fun _ => ⟨"x", true, none⟩

/-- A source that always fails with an error. -/
def srcErr : Looker := fun _ => ⟨"", false, some "boom"⟩

theorem lookupKey_first_success_or_last_witness :
    lookupKey "k" [srcMiss, srcHit, srcErr] = ⟨"x", true, none⟩
    ∧ lookupKey "k" [srcMiss, srcErr] = ⟨"", false, some "boom"⟩ := by
  constructor
  · exact (lookupKey_first_success_or_last "k" [srcMiss, srcHit, srcErr]).2.1
      [srcMiss] srcHit [srcErr] rfl (by intro x hx; simp at hx; subst hx; decide)
      (by constructor <;> rfl)
  · exact (lookupKey_first_success_or_last "k" [srcMiss, srcErr]).2.2
      (by intro x hx; simp at hx; rcases hx with h | h <;> subst h <;> decide)
      srcErr rfl

/-- C10: a NoBool-wrapped function reports found exactly when the wrapped
call errored, so success gives (value, false, nil), failure gives
(value, true, the error), and the acceptance condition of the sequence
resolver can never hold for it. -/
theorem noBool_found_iff_error (F : String → String × Option String) (s : String) :
    ((NoBool F s).b = true ↔ (NoBool F s).err ≠ none)
    ∧ ((F s).2 = none → NoBool F s = ⟨(F s).1, false, none⟩)
    ∧ (∀ e, (F s).2 = some e → NoBool F s = ⟨(F s).1, true, some e⟩)
    ∧ ¬ accepts (NoBool F s) := by
  refine ⟨?_, ?_, ?_, ?_⟩
  · simp [NoBool, Option.isSome_iff_ne_none]
  · intro h; simp [NoBool, h]
  · intro e h; simp [NoBool, h]
  · rintro ⟨h1, h2⟩
    simp only [NoBool] at h1 h2
    rw [h1] at h2
    simp at h2

/-- A function in the NoBool shape that succeeds on key a and errors otherwise. -/
def noBoolFn (s : String) : String × Option String :=
  if s = "a" then ("va", none) else ("", some "nope")

theorem noBool_found_iff_error_witness :
    NoBool noBoolFn "a" = ⟨"va", false, none⟩
    ∧ NoBool noBoolFn "b" = ⟨"", true, some "nope"⟩ := by
  constructor
  · exact (noBool_found_iff_error noBoolFn "a").2.1 rfl
  · exact (noBool_found_iff_error noBoolFn "b").2.2.1 "nope" rfl

-- Field metadata extraction (struct tags).

/-- Model of Go strings.Split(s, ",") : structural scan over the
characters; splitting always yields at least one part, and the parts
joined by commas give back the input. -/
def splitCommaAux : List Char → List Char → List String
  | [], acc => [String.mk acc.reverse]
  | c :: rest, acc =>
    if c = ',' then String.mk acc.reverse :: splitCommaAux rest []
    else splitCommaAux rest (c :: acc)

/-- Split a string on commas, as strings.Split does: the result always
has at least one part (even for the empty string). -/
def splitComma (s : String) : List String := splitCommaAux s.toList []

theorem splitCommaAux_ne_nil (cs : List Char) : ∀ acc, splitCommaAux cs acc ≠ [] := by
  induction cs with
  | nil => intro acc; simp [splitCommaAux]
  | cons c rest ih =>
    intro acc
    by_cases h : c = ','
    · simp [splitCommaAux, h]
    · simp only [splitCommaAux, if_neg h]
      exact ih _

theorem splitComma_ne_nil (s : String) : splitComma s ≠ [] :=
  splitCommaAux_ne_nil s.toList []

/-- A struct tag modelled as an association list from tag-system name to
tag value; lookup models reflect.StructTag.Lookup. -/
def tagLookup (tags : List (String × String)) (name : String) : Option String :=
  (tags.find? (fun p => p.1 = name)).map (fun p => p.2)

/-- The sentinel returned by findTag when no tag system matched
(part_002 line 144). -/
def notFound : String := ""

/-- The recognized tag systems in priority order, each with its
optional-marker literal (part_002 lines 92-97). -/
def lookupTags : List (String × String) := [("json", "omitempty"), ("lookup", "optional")]

/-- Loop of findTag (first revision, part_002 lines 146-164): return at
the FIRST tag system that is present and non-empty; split its value on
commas; one part means the key is the whole value, two or more parts mean
the first part is the key and the field is optional exactly when the
second part equals the tag system's marker.  A zero-part split would leave
the key at its zero value, but splitting a string never yields zero parts. -/
def findTagAux (tag : String → Option String) : List (String × String) → String × Bool
  | [] => (notFound, false)
  | (t, optMark) :: rest =>
    match tag t with
    | some s =>
      if s = "" then findTagAux tag rest
      else
        match splitComma s with
        | [] => ("", false)
        | [_] => (s, false)
        | p1 :: p2 :: _ => (p1, p2 = optMark)
    | none => findTagAux tag rest

/-- findTag (first revision, part_002 lines 146-164). -/
def findTag (tag : String → Option String) : String × Bool :=
  findTagAux tag lookupTags

/-- Inline tag scan of the second revision of Lookup (part_002 lines
316-336): same split logic, but the loop over the tag systems has no
break, so a later matching tag system overwrites the key extracted from
an earlier one, and the optional flag set by an earlier system persists
when the later system's value has only one part.  State is
(fieldKey, optional, found), with fieldKey seeded from the field name. -/
def extractV2Aux (tag : String → Option String) :
    List (String × String) → String × Bool × Bool → String × Bool × Bool
  | [], st => st
  | (t, optMark) :: rest, (fieldKey, opt, found) =>
    match tag t with
    | some s =>
      if s = "" then extractV2Aux tag rest (fieldKey, opt, found)
      else
        match splitComma s with
        | [] => extractV2Aux tag rest ("", opt, true)
        | [_] => extractV2Aux tag rest (s, opt, true)
        | p1 :: p2 :: _ => extractV2Aux tag rest (p1, p2 = optMark, true)
    | none => extractV2Aux tag rest (fieldKey, opt, found)

/-- Tag scan of the second revision (part_002 lines 316-336). -/
def extractV2 (fieldName : String) (tag : String → Option String) :
    String × Bool × Bool :=
  extractV2Aux tag lookupTags (fieldName, false, false)

/-- Tag scan of the third revision of Lookup (part_002 lines 498-512):
only the lookup tag system is recognized; `none` means the field is
skipped (the continue branch). -/
def extractV3 (tag : String → Option String) : Option (String × Bool) :=
  match tag "lookup" with
  | some s =>
    if s = "" then none
    else
      match splitComma s with
      | [] => some ("", false)
      | [_] => some (s, false)
      | p1 :: p2 :: _ => some (p1, p2 = "optional")
  | none => none

/-- C2 (code bug): with both tag systems present and non-empty, findTag
honours the higher-priority json tag and ignores the lookup tag, but the
second revision's inline scan, lacking a break, lets the lower-priority
lookup tag win, and even lets the json tag's optionality leak into the
result when the lookup tag has a single part. -/
theorem tag_priority_divergence :
    findTag (tagLookup [("json", "J"), ("lookup", "L")]) = ("J", false)
    ∧ extractV2 "X" (tagLookup [("json", "J"), ("lookup", "L")]) = ("L", false, true)
    ∧ findTag (tagLookup [("json", "J,omitempty"), ("lookup", "L")]) = ("J", true)
    ∧ extractV2 "X" (tagLookup [("json", "J,omitempty"), ("lookup", "L")]) = ("L", true, true) := by
  refine ⟨?_, ?_, ?_, ?_⟩ <;> rfl

/-- C8: for a field whose winning tag system (the first one present and
non-empty, in priority order) carries value s, extraction splits s on
commas; one part makes that part the key with the field not optional,
two or more parts make the first part the key with optionality decided by
comparing the second part against the winning system's marker literal;
and a zero-part split can never arise, so the fall-through to the declared
field name is vacuous.  Stated for findTag with the json system winning,
for findTag with the lookup system winning, and for the third revision's
lookup-only scan. -/
theorem findTag_split_semantics (tag : String → Option String) (s : String) :
    (tag "json" = some s → s ≠ "" →
      (∀ p, splitComma s = [p] → findTag tag = (s, false))
      ∧ (∀ p1 p2 r, splitComma s = p1 :: p2 :: r → findTag tag = (p1, decide (p2 = "omitempty"))))
    ∧ ((tag "json" = none ∨ tag "json" = some "") → tag "lookup" = some s → s ≠ "" →
      (∀ p, splitComma s = [p] → findTag tag = (s, false))
      ∧ (∀ p1 p2 r, splitComma s = p1 :: p2 :: r → findTag tag = (p1, decide (p2 = "optional"))))
    ∧ (tag "lookup" = some s → s ≠ "" →
      (∀ p, splitComma s = [p] → extractV3 tag = some (s, false))
      ∧ (∀ p1 p2 r, splitComma s = p1 :: p2 :: r →
          extractV3 tag = some (p1, decide (p2 = "optional"))))
    ∧ splitComma s ≠ [] := by
  refine ⟨?_, ?_, ?_, splitComma_ne_nil s⟩
  · intro hj hs
    constructor
    · intro p hsplit
      simp [findTag, lookupTags, findTagAux, hj, hs, hsplit]
    · intro p1 p2 r hsplit
      simp [findTag, lookupTags, findTagAux, hj, hs, hsplit]
  · intro hj hl hs
    rcases hj with hj | hj
    · constructor
      · intro p hsplit
        simp [findTag, lookupTags, findTagAux, hj, hl, hs, hsplit]
      · intro p1 p2 r hsplit
        simp [findTag, lookupTags, findTagAux, hj, hl, hs, hsplit]
    · constructor
      · intro p hsplit
        simp [findTag, lookupTags, findTagAux, hj, hl, hs, hsplit]
      · intro p1 p2 r hsplit
        simp [findTag, lookupTags, findTagAux, hj, hl, hs, hsplit]
  · intro hl hs
    constructor
    · intro p hsplit
      simp [extractV3, hl, hs, hsplit]
    · intro p1 p2 r hsplit
      simp [extractV3, hl, hs, hsplit]

theorem findTag_split_semantics_witness :
    findTag (tagLookup [("json", "K,omitempty")]) = ("K", true)
    ∧ findTag (tagLookup [("json", "K,foo")]) = ("K", false)
    ∧ findTag (tagLookup [("json", "K")]) = ("K", false)
    ∧ findTag (tagLookup [("lookup", "K2,optional")]) = ("K2", true)
    ∧ extractV3 (tagLookup [("lookup", "K3,optional")]) = some ("K3", true) := by
  refine ⟨?_, ?_, ?_, ?_, ?_⟩
  · have h := (findTag_split_semantics (tagLookup [("json", "K,omitempty")]) "K,omitempty").1
      rfl (by decide)
    simpa using h.2 "K" "omitempty" [] rfl
  · have h := (findTag_split_semantics (tagLookup [("json", "K,foo")]) "K,foo").1
      rfl (by decide)
    simpa using h.2 "K" "foo" [] rfl
  · have h := (findTag_split_semantics (tagLookup [("json", "K")]) "K").1
      rfl (by decide)
    exact h.1 "K" rfl
  · have h := (findTag_split_semantics (tagLookup [("lookup", "K2,optional")]) "K2,optional").2.1
      (Or.inl rfl) rfl (by decide)
    simpa using h.2 "K2" "optional" [] rfl
  · have h := (findTag_split_semantics (tagLookup [("lookup", "K3,optional")]) "K3,optional").2.2.1
      rfl (by decide)
    simpa using h.2 "K3" "optional" [] rfl

-- Base64 (standard alphabet, no padding), modelling encoding/base64 RawStdEncoding.

/-- Index of a character in the standard base64 alphabet: the decode map
of encoding/base64 for the standard alphabet; characters outside the
alphabet (including the padding character) are invalid. -/
def b64Index (c : Char) : Option Nat :=
  let n := c.toNat
  if 65 ≤ n ∧ n ≤ 90 then some (n - 65)
  else if 97 ≤ n ∧ n ≤ 122 then some (n - 97 + 26)
  else if 48 ≤ n ∧ n ≤ 57 then some (n - 48 + 52)
  else if n = 43 then some 62
  else if n = 47 then some 63
  else none

/-- Character of a 6-bit value in the standard base64 alphabet. -/
def b64Char (n : Nat) : Char :=
  if n < 26 then Char.ofNat (65 + n)
  else if n < 52 then Char.ofNat (97 + (n - 26))
  else if n < 62 then Char.ofNat (48 + (n - 52))
  else if n = 62 then '+'
  else '/'

/-- Model of base64.RawStdEncoding encoding over byte values: groups of
three bytes become four characters; a final group of one or two bytes
becomes two or three characters; no padding is emitted. -/
def b64Encode : List Nat → List Char
  | [] => []
  | [x] => [b64Char (x / 4), b64Char (x % 4 * 16)]
  | [x, y] => [b64Char (x / 4), b64Char (x % 4 * 16 + y / 16), b64Char (y % 16 * 4)]
  | x :: y :: z :: rest =>
    b64Char (x / 4) :: b64Char (x % 4 * 16 + y / 16) ::
      b64Char (y % 16 * 4 + z / 64) :: b64Char (z % 64) :: b64Encode rest

/-- Model of base64.RawStdEncoding.DecodeString: like the Go function it
returns the bytes decoded so far together with an optional error; an
invalid character or a single leftover character is corrupt input, and the
default non-strict decoder ignores non-zero trailing bits of a final
incomplete group.  Partial bytes inside a failing group are not modelled;
the bytes of the preceding complete groups are returned. -/
def b64Decode : List Char → List Nat × Option String
  | [] => ([], none)
  | [_] => ([], some "corrupt input")
  | [a, b] =>
    match b64Index a, b64Index b with
    | some va, some vb => ([va * 4 + vb / 16], none)
    | _, _ => ([], some "corrupt input")
  | [a, b, c] =>
    match b64Index a, b64Index b, b64Index c with
    | some va, some vb, some vc =>
      ([va * 4 + vb / 16, vb % 16 * 16 + vc / 4], none)
    | _, _, _ => ([], some "corrupt input")
  | a :: b :: c :: d :: rest =>
    match b64Index a, b64Index b, b64Index c, b64Index d with
    | some va, some vb, some vc, some vd =>
      let p := b64Decode rest
      ((va * 4 + vb / 16) :: (vb % 16 * 16 + vc / 4) :: (vc % 4 * 64 + vd) :: p.1, p.2)
    | _, _, _, _ => ([], some "corrupt input")

theorem b64Index_b64Char : ∀ n, n < 64 → b64Index (b64Char n) = some n := by decide

/-- Decoding an encoding of bytes recovers the bytes exactly. -/
theorem b64Decode_b64Encode : ∀ (bs : List Nat), (∀ b ∈ bs, b < 256) →
    b64Decode (b64Encode bs) = (bs, none) := by
  intro bs
  induction bs using b64Encode.induct with
  | case1 => intro _; rfl
  | case2 x =>
    intro h
    have hx : x < 256 := h x (by simp)
    simp only [b64Encode, b64Decode]
    rw [b64Index_b64Char _ (by omega), b64Index_b64Char _ (by omega)]
    simp only [Prod.mk.injEq, List.cons.injEq, and_true]
    omega
  | case3 x y =>
    intro h
    have hx : x < 256 := h x (by simp)
    have hy : y < 256 := h y (by simp)
    simp only [b64Encode, b64Decode]
    rw [b64Index_b64Char _ (by omega), b64Index_b64Char _ (by omega),
      b64Index_b64Char _ (by omega)]
    simp only [Prod.mk.injEq, List.cons.injEq, and_true]
    omega
  | case4 x y z rest ih =>
    intro h
    have hx : x < 256 := h x (by simp)
    have hy : y < 256 := h y (by simp)
    have hz : z < 256 := h z (by simp)
    have hrest : ∀ b ∈ rest, b < 256 := fun b hb => h b (by simp [hb])
    simp only [b64Encode, b64Decode]
    rw [b64Index_b64Char _ (by omega), b64Index_b64Char _ (by omega),
      b64Index_b64Char _ (by omega), b64Index_b64Char _ (by omega)]
    simp only [ih hrest, Prod.mk.injEq, List.cons.injEq, and_true]
    omega

-- Scalar coercions.

/-- Numeric value of a list of decimal digit characters. -/
def natOfDigits (l : List Char) : Nat :=
  l.foldl (fun a c => a * 10 + (c.toNat - 48)) 0

/-- Model of strconv.ParseBool, used by the bool case of the third
revision of Lookup (part_002 lines 548-555): exactly twelve accepted
literals, anything else is a syntax error. -/
def parseBool (s : String) : Option Bool :=
  if s = "1" ∨ s = "t" ∨ s = "T" ∨ s = "true" ∨ s = "TRUE" ∨ s = "True" then some true
  else if s = "0" ∨ s = "f" ∨ s = "F" ∨ s = "false" ∨ s = "FALSE" ∨ s = "False" then
    some false
  else none

/-- Model of fmt.Sscanln(v + newline, x) for a pointer x to a 64-bit
signed integer field: an optional sign followed by decimal digits, with
the whole string consumed and a 64-bit range check; the base-prefix and
whitespace generality of fmt is not exercised by the claims.  none covers
both a non-nil scan error and the nothing-to-read case where no operand
was filled. -/
def sscanInt (s : String) : Option Int :=
  let signed : Int × List Char :=
    match s.toList with
    | '-' :: r => (-1, r)
    | '+' :: r => (1, r)
    | r => (1, r)
  let ds := signed.2
  if ds ≠ [] ∧ ds.all Char.isDigit then
    let n : Int := signed.1 * (natOfDigits ds : Int)
    if -(2 ^ 63) ≤ n ∧ n < 2 ^ 63 then some n else none
  else none

/-- Model of strconv.ParseFloat restricted to finite decimal literals (an
optional sign, then digits with an optional fractional part): the value is
kept as an exact rational, which agrees with the float semantics on the
exactly-representable values the claims use; exponents, hex floats, Inf
and NaN are not modelled. -/
def parseFloat (s : String) : Option Rat :=
  let signed : Rat × List Char :=
    match s.toList with
    | '-' :: r => (-1, r)
    | '+' :: r => (1, r)
    | r => (1, r)
  let ds := signed.2
  let intPart := ds.takeWhile Char.isDigit
  let rest := ds.dropWhile Char.isDigit
  match rest with
  | [] => if intPart = [] then none else some (signed.1 * (natOfDigits intPart : Rat))
  | '.' :: fr =>
    if fr.all Char.isDigit ∧ ¬(intPart = [] ∧ fr = []) then
      some (signed.1 * ((natOfDigits intPart : Rat) + (natOfDigits fr : Rat) / 10 ^ fr.length))
    else none
  | _ => none

/-- Outcome of setComplex (third revision, part_002 lines 618-631).  The
Go loop ranges over strings.Split(s, ",")[:2]; when the split yields fewer
than two parts, that slice expression exceeds the capacity of the slice
returned by Split, so the program panics (slice bounds out of range)
instead of returning an error — modelled by the panic constructor. -/
inductive ComplexOut
  | ok (re im : Rat)
  | err (part : String)
  | panic
deriving DecidableEq, Repr

/-- setComplex (part_002 lines 618-631): take the first two comma
separated parts, parse each as a float, build complex(c0, c1); a parse
failure on either part returns that error; fewer than two parts panics. -/
def setComplex (s : String) : ComplexOut :=
  match splitComma s with
  | p1 :: p2 :: _ =>
    match parseFloat p1 with
    | none => ComplexOut.err p1
    | some re =>
      match parseFloat p2 with
      | none => ComplexOut.err p2
      | some im => ComplexOut.ok re im
  | _ => ComplexOut.panic

/-- C7 (code bug): the raw value 3,4 coerces to the complex value with
real part 3 and imaginary part 4, but a raw value with no comma, such as
3, does not produce a typed error result: Split yields a single part and
the slice expression with upper bound 2 panics.  Any one-part input
panics, and when the second part fails to parse the error is the typed
error the claim expects. -/
theorem setComplex_pair_and_no_comma :
    setComplex "3,4" = ComplexOut.ok 3 4
    ∧ setComplex "3" = ComplexOut.panic
    ∧ setComplex "3,x" = ComplexOut.err "x" := by
  have h3 : parseFloat "3" = some 3 := by simp [parseFloat, natOfDigits]
  have h4 : parseFloat "4" = some 4 := by simp [parseFloat, natOfDigits]
  have hx : parseFloat "x" = none := by simp [parseFloat]
  have hs34 : splitComma "3,4" = ["3", "4"] := rfl
  have hs3 : splitComma "3" = ["3"] := rfl
  have hs3x : splitComma "3,x" = ["3", "x"] := rfl
  refine ⟨?_, ?_, ?_⟩
  · simp [setComplex, hs34, h3, h4]
  · simp [setComplex, hs3]
  · simp [setComplex, hs3x, h3, hx]

/-- C9 counterexample: the boolean coercion of the third revision
(strconv.ParseBool) is not case-insensitive — the mixed-case literal tRuE
is rejected with an error rather than accepted as true. -/
theorem parseBool_mixed_case_rejected : parseBool "tRuE" = none := by decide

/-- C9 amended: ParseBool accepts exactly the literals 1, t, T, true,
TRUE, True (as true) and 0, f, F, false, FALSE, False (as false) — so the
one-letter forms in either case but the spelled-out forms only in lower,
Title and UPPER casings — and returns an error for every other string. -/
theorem parseBool_exact_literals (s : String) :
    (parseBool s = some true ↔
      (s = "1" ∨ s = "t" ∨ s = "T" ∨ s = "true" ∨ s = "TRUE" ∨ s = "True"))
    ∧ (parseBool s = some false ↔
      (s = "0" ∨ s = "f" ∨ s = "F" ∨ s = "false" ∨ s = "FALSE" ∨ s = "False"))
    ∧ (parseBool s = none ↔
      ¬(s = "1" ∨ s = "t" ∨ s = "T" ∨ s = "true" ∨ s = "TRUE" ∨ s = "True")
      ∧ ¬(s = "0" ∨ s = "f" ∨ s = "F" ∨ s = "false" ∨ s = "FALSE" ∨ s = "False")) := by
  by_cases h1 : s = "1" ∨ s = "t" ∨ s = "T" ∨ s = "true" ∨ s = "TRUE" ∨ s = "True"
  · rcases h1 with rfl | rfl | rfl | rfl | rfl | rfl <;> refine ⟨?_, ?_, ?_⟩ <;> decide
  · by_cases h2 : s = "0" ∨ s = "f" ∨ s = "F" ∨ s = "false" ∨ s = "FALSE" ∨ s = "False"
    · rcases h2 with rfl | rfl | rfl | rfl | rfl | rfl <;> refine ⟨?_, ?_, ?_⟩ <;> decide
    · have hp : parseBool s = none := by
        unfold parseBool
        rw [if_neg h1, if_neg h2]
      refine ⟨?_, ?_, ?_⟩ <;> simp [hp, h1, h2]

-- The resolution orchestrator (first revision: Lookup + setField,
-- part_002 lines 103-195).

/-- A field's native value.  The constructors cover the coercion classes
the claims exercise: a string field (set verbatim), a byte-buffer field
(base64), and a 64-bit integer field standing for the generic Sscanln
fallback of the first revision's setField. -/
inductive GoVal
  | str (s : String)
  | bytes (bs : List Nat)
  | i64 (n : Int)
deriving DecidableEq, Repr

/-- One field of the record: declared name, struct tag (association list
over tag systems), current value. -/
structure StructField where
  name : String
  tags : List (String × String)
  val : GoVal
deriving DecidableEq, Repr

/-- Observable actions of a resolution pass, in order: a field mutation
(SetString / SetBytes / the Sscanln write) or a Reporter call. -/
inductive Event
  | set (fieldName : String) (v : GoVal)
  | report (key : String) (v : GoVal)
deriving DecidableEq, Repr

/-- The errors Lookup can return, as structured values carrying the data
the corresponding fmt.Errorf calls format into their messages. -/
inductive LookupErr
  | lookupFailed (fieldName err : String)
  | badValue (raw fieldName err : String)
  | missingRequired (fieldName : String)
deriving DecidableEq, Repr

/-- setField (first revision, part_002 lines 166-195): a string field is
set verbatim; a byte-buffer field is set to the base64 decoding of the
raw value, with a decode error returned before any mutation; any other
field is filled by the generic scan, an error being returned before any
mutation.  On success the Reporter receives the value the field now holds
(field.Interface() after the mutation), exactly once, after the set.
Returns (error, new field value, ordered events). -/
def setField (fieldVal : GoVal) (v fieldKey fieldName : String) :
    Option String × GoVal × List Event :=
  match fieldVal with
  | .str _ =>
    (none, .str v, [Event.set fieldName (.str v), Event.report fieldKey (.str v)])
  | .bytes _ =>
    let p := b64Decode v.toList
    match p.2 with
    | some e => (some e, fieldVal, [])
    | none =>
      (none, .bytes p.1, [Event.set fieldName (.bytes p.1), Event.report fieldKey (.bytes p.1)])
  | .i64 _ =>
    match sscanInt v with
    | none => (some "scan error", fieldVal, [])
    | some n =>
      (none, .i64 n, [Event.set fieldName (.i64 n), Event.report fieldKey (.i64 n)])

/-- Coercion step of the second revision of Lookup (part_002 lines
345-378), with the byte-buffer branch shared verbatim with the third
revision (lines 567-572): a string field is set and the raw string
reported; for a byte-buffer field the decode error is shadowed, the field
is set only when decoding FAILED, the decoded bytes are reported either
way and no error propagates; any other field is scanned and on success
the Reporter receives the RAW string, not the converted value. -/
def setFieldV2 (fieldVal : GoVal) (v fieldKey fieldName : String) :
    Option String × GoVal × List Event :=
  match fieldVal with
  | .str _ =>
    (none, .str v, [Event.set fieldName (.str v), Event.report fieldKey (.str v)])
  | .bytes _ =>
    let p := b64Decode v.toList
    match p.2 with
    | some _ =>
      (none, .bytes p.1, [Event.set fieldName (.bytes p.1), Event.report fieldKey (.bytes p.1)])
    | none => (none, fieldVal, [Event.report fieldKey (.bytes p.1)])
  | .i64 _ =>
    match sscanInt v with
    | none => (some "scan error", fieldVal, [])
    | some n =>
      (none, .i64 n, [Event.set fieldName (.i64 n), Event.report fieldKey (.str v)])

/-- Per-field step of Lookup (first revision, part_002 lines 116-140):
extract the tag; skip the field when no tag system matched; resolve the
key through the source sequence; a lookup error aborts; a found value is
coerced by setField, whose error aborts; a missing value aborts unless
the field is optional, in which case the Reporter receives the raw value
the resolver returned. -/
def processField (seq : List Looker) (f : StructField) :
    Option LookupErr × StructField × List Event :=
  let ft := findTag (tagLookup f.tags)
  if ft.1 = notFound then (none, f, [])
  else
    let r := lookupKey ft.1 seq
    match r.err with
    | some e => (some (LookupErr.lookupFailed f.name e), f, [])
    | none =>
      if r.b then
        let sf := setField f.val r.v ft.1 f.name
        match sf.1 with
        | some e => (some (LookupErr.badValue r.v f.name e), { f with val := sf.2.1 }, sf.2.2)
        | none => (none, { f with val := sf.2.1 }, sf.2.2)
      else if ft.2 then (none, f, [Event.report ft.1 (GoVal.str r.v)])
      else (some (LookupErr.missingRequired f.name), f, [])

/-- The field loop of Lookup (first revision, part_002 lines 116-141):
fields are processed in declaration order; the first per-field error
aborts the pass, leaving the remaining fields untouched and unreported;
otherwise the per-field results accumulate.  Returns (error, record after
the pass, ordered events). -/
def lookupGo (seq : List Looker) : List StructField → Option LookupErr × List StructField × List Event
  | [] => (none, [], [])
  | f :: rest =>
    match processField seq f with
    | (some e, f', evs) => (some e, f' :: rest, evs)
    | (none, f', evs) =>
      let p := lookupGo seq rest
      (p.1, f' :: p.2.1, evs ++ p.2.2)

/-- The record state a successfully processed field is left in. -/
def procVal (seq : List Looker) (f : StructField) : StructField :=
  (processField seq f).2.1

/-- The events a successfully processed field emits. -/
def procEvs (seq : List Looker) (f : StructField) : List Event :=
  (processField seq f).2.2

theorem lookupGo_append_ok (seq : List Looker) :
    ∀ (pre rest : List StructField), (∀ g ∈ pre, (processField seq g).1 = none) →
      lookupGo seq (pre ++ rest) =
        ((lookupGo seq rest).1,
         pre.map (procVal seq) ++ (lookupGo seq rest).2.1,
         (pre.map (procEvs seq)).flatten ++ (lookupGo seq rest).2.2) := by
  intro pre
  induction pre with
  | nil => intro rest _; simp
  | cons g pre' ih =>
    intro rest hok
    have hg : (processField seq g).1 = none := hok g (by simp)
    have hrec := ih rest (fun z hz => hok z (by simp [hz]))
    rcases hpf : processField seq g with ⟨e, g', evs⟩
    rw [hpf] at hg
    subst hg
    simp only [List.cons_append, lookupGo, hpf, List.append_eq, hrec, List.map_cons,
      List.flatten_cons, procVal, procEvs, List.append_assoc]

/-- C3: when the fields before f all process successfully and f carries a
tag whose key the resolver cannot supply (found false, nil error) and is
not marked optional, the pass aborts with the missing-required-field
error naming f; the fields before f keep their newly set values and their
Reporter events, and f and every field after it are neither mutated nor
reported. -/
theorem missing_required_aborts (seq : List Looker) (pre post : List StructField)
    (f : StructField) (key : String)
    (hpre : ∀ g ∈ pre, (processField seq g).1 = none)
    (hkey : findTag (tagLookup f.tags) = (key, false))
    (hne : key ≠ notFound)
    (hb : (lookupKey key seq).b = false)
    (herr : (lookupKey key seq).err = none) :
    lookupGo seq (pre ++ f :: post) =
      (some (LookupErr.missingRequired f.name),
       pre.map (procVal seq) ++ f :: post,
       (pre.map (procEvs seq)).flatten) := by
  have hf : processField seq f = (some (LookupErr.missingRequired f.name), f, []) := by
    simp only [processField, hkey]
    rw [if_neg hne]
    simp [herr, hb]
  have habort : lookupGo seq (f :: post) =
      (some (LookupErr.missingRequired f.name), f :: post, []) := by
    simp [lookupGo, hf]
  rw [lookupGo_append_ok seq pre (f :: post) hpre, habort]
  simp

/-- C4: when the fields before f all process successfully and f carries a
tag marked optional whose key the resolver cannot supply (found false,
nil error), the pass continues past f with the outcome of the remaining
fields; f keeps its prior value, and the Reporter receives exactly one
entry for f, carrying the key and the raw value the resolver actually
returned (the empty string for the well-behaved sources of this
repository). -/
theorem optional_missing_keeps_value (seq : List Looker) (pre post : List StructField)
    (f : StructField) (key : String)
    (hpre : ∀ g ∈ pre, (processField seq g).1 = none)
    (hkey : findTag (tagLookup f.tags) = (key, true))
    (hne : key ≠ notFound)
    (hb : (lookupKey key seq).b = false)
    (herr : (lookupKey key seq).err = none) :
    lookupGo seq (pre ++ f :: post) =
      ((lookupGo seq post).1,
       pre.map (procVal seq) ++ f :: (lookupGo seq post).2.1,
       (pre.map (procEvs seq)).flatten
         ++ Event.report key (GoVal.str (lookupKey key seq).v) :: (lookupGo seq post).2.2) := by
  have hf : processField seq f =
      (none, f, [Event.report key (GoVal.str (lookupKey key seq).v)]) := by
    simp only [processField, hkey]
    rw [if_neg hne]
    simp [herr, hb]
  have hcont : lookupGo seq (f :: post) =
      ((lookupGo seq post).1, f :: (lookupGo seq post).2.1,
       Event.report key (GoVal.str (lookupKey key seq).v) :: (lookupGo seq post).2.2) := by
    simp [lookupGo, hf]
  rw [lookupGo_append_ok seq pre (f :: post) hpre, hcont]

-- Concrete record and source used by the orchestrator witnesses.

/-- A source that supplies only key B with value 2. -/
def srcB : Looker := fun k => if k = "B" then ⟨"2", true, none⟩ else ⟨"", false, none⟩

/-- An optional int64 field under key A. -/
def fieldA : StructField := ⟨"A", [("lookup", "A,optional")], GoVal.i64 7⟩

/-- A required int64 field under key B. -/
def fieldB : StructField := ⟨"B", [("lookup", "B")], GoVal.i64 0⟩

/-- A required string field under key D. -/
def fieldD : StructField := ⟨"D", [("lookup", "D")], GoVal.str ""⟩

/-- A required string field under json key E1. -/
def fieldE : StructField := ⟨"E", [("json", "E1")], GoVal.str "old"⟩

theorem missing_required_aborts_witness :
    lookupGo [srcB] [fieldB, fieldD, fieldE] =
      (some (LookupErr.missingRequired "D"),
       [fieldB].map (procVal [srcB]) ++ fieldD :: [fieldE],
       ([fieldB].map (procEvs [srcB])).flatten) := by
  have h := missing_required_aborts [srcB] [fieldB] [fieldE] fieldD "D"
    (by intro g hg; simp at hg; subst hg; decide)
    (by decide) (by decide) (by decide) (by decide)
  simpa using h

theorem optional_missing_keeps_value_witness :
    lookupGo [srcB] [fieldA, fieldB] =
      ((lookupGo [srcB] [fieldB]).1,
       fieldA :: (lookupGo [srcB] [fieldB]).2.1,
       Event.report "A" (GoVal.str "") :: (lookupGo [srcB] [fieldB]).2.2) := by
  have h := optional_missing_keeps_value [srcB] [] [fieldB] fieldA "A"
    (by intro g hg; simp at hg)
    (by decide) (by decide) (by decide) (by decide)
  simpa using h

/-- C5 (code bug): in the first revision every successfully coerced field
emits exactly one set event followed by exactly one report event, and the
reported value is the converted value actually stored in the field (the
new field value, not the raw string).  The second revision's generic scan
branch violates this: at an int64 field with raw value 42 it stores the
integer but reports the raw string. -/
theorem report_after_set_converted :
    (∀ (fv : GoVal) (v key name : String),
      (setField fv v key name).1 = none →
      (setField fv v key name).2.2 =
        [Event.set name (setField fv v key name).2.1,
         Event.report key (setField fv v key name).2.1])
    ∧ setFieldV2 (GoVal.i64 0) "42" "K" "F" =
      (none, GoVal.i64 42, [Event.set "F" (GoVal.i64 42), Event.report "K" (GoVal.str "42")]) := by
  constructor
  · intro fv v key name h
    cases fv with
    | str s0 => simp [setField]
    | bytes bs =>
      rcases hd : (b64Decode v.data).2 with _ | e
      · simp [setField, hd]
      · exfalso
        simp [setField, hd] at h
    | i64 n =>
      rcases hs : sscanInt v with _ | m
      · exfalso
        simp [setField, hs] at h
      · simp [setField, hs]
  · decide

theorem report_after_set_converted_witness :
    (setField (GoVal.i64 0) "7" "K" "F").2.2 =
      [Event.set "F" (setField (GoVal.i64 0) "7" "K" "F").2.1,
       Event.report "K" (setField (GoVal.i64 0) "7" "K" "F").2.1] :=
  report_after_set_converted.1 (GoVal.i64 0) "7" "K" "F" (by decide)

/-- C6 (code bug): in the first revision the byte-buffer coercion is a
base64 round trip — coercing the encoding of any byte sequence stores
exactly those bytes in the field and reports them — and a raw value whose
decoding fails yields a coercion error, which aborts the pass, since any
per-field error makes the field loop return immediately with the later
fields untouched.  The byte-buffer branch shared by the second and third
revisions breaks both directions: its inverted nil-error check leaves the
field untouched on a valid encoding, and on an invalid one it silently
stores the partially decoded bytes and continues without error. -/
theorem bytes_roundtrip_and_inverted_branch :
    (∀ (bs cur : List Nat) (key name : String), (∀ b ∈ bs, b < 256) →
      setField (GoVal.bytes cur) (String.mk (b64Encode bs)) key name =
        (none, GoVal.bytes bs,
         [Event.set name (GoVal.bytes bs), Event.report key (GoVal.bytes bs)]))
    ∧ (∀ (cur : List Nat) (v key name : String), (b64Decode v.toList).2 ≠ none →
        (setField (GoVal.bytes cur) v key name).1 ≠ none)
    ∧ (∀ (seq : List Looker) (f : StructField) (rest : List StructField) (e : LookupErr),
        (processField seq f).1 = some e →
        lookupGo seq (f :: rest) = (some e, procVal seq f :: rest, procEvs seq f))
    ∧ setFieldV2 (GoVal.bytes [9]) "QUJD" "K" "F" =
        (none, GoVal.bytes [9], [Event.report "K" (GoVal.bytes [65, 66, 67])])
    ∧ setFieldV2 (GoVal.bytes [9]) "!" "K" "F" =
        (none, GoVal.bytes [],
         [Event.set "F" (GoVal.bytes []), Event.report "K" (GoVal.bytes [])]) := by
  refine ⟨?_, ?_, ?_, by decide, by decide⟩
  · intro bs cur key name h
    have hlist : (String.mk (b64Encode bs)).toList = b64Encode bs := rfl
    have hrt := b64Decode_b64Encode bs h
    simp [setField, hlist, hrt]
  · intro cur v key name hd
    rcases he : (b64Decode v.data).2 with _ | e
    · exact absurd he hd
    · simp [setField, he]
  · intro seq f rest e h
    rcases hpf : processField seq f with ⟨e1, f', evs⟩
    rw [hpf] at h
    simp only at h
    subst h
    simp [lookupGo, hpf, procVal, procEvs]

/-- A byte-buffer field under key G whose raw value will fail to decode. -/
def fieldG : StructField := ⟨"G", [("lookup", "G")], GoVal.bytes [1, 2]⟩

theorem bytes_roundtrip_and_inverted_branch_witness :
    setField (GoVal.bytes []) (String.mk (b64Encode [0, 255, 10])) "K" "F" =
      (none, GoVal.bytes [0, 255, 10],
       [Event.set "F" (GoVal.bytes [0, 255, 10]), Event.report "K" (GoVal.bytes [0, 255, 10])])
    ∧ (setField (GoVal.bytes []) "!" "K" "F").1 ≠ none
    ∧ lookupGo [srcHit] [fieldG, fieldE] =
        (some (LookupErr.badValue "x" "G" "corrupt input"),
         procVal [srcHit] fieldG :: [fieldE], procEvs [srcHit] fieldG) := by
  refine ⟨?_, ?_, ?_⟩
  · exact bytes_roundtrip_and_inverted_branch.1 [0, 255, 10] [] "K" "F" (by decide)
  · exact bytes_roundtrip_and_inverted_branch.2.1 [] "!" "K" "F" (by decide)
  · exact bytes_roundtrip_and_inverted_branch.2.2.1 [srcHit] fieldG [fieldE]
      (LookupErr.badValue "x" "G" "corrupt input") (by decide)
